import Mathlib

/-!
# Verification of the "we" error-wrapping library

A shallow embedding of the Go package `we` (src/we.go, final revision: the
one providing `New`, `Newf`, `NewEC`, `NewfEC`, `WithExitCode`, `ExitCode`,
`Cause`, `Prependf`, `Errorf`).

Modelling choices:

* A Go `error` value is `GoErr`: the nil interface, a plain error carrying
  its message, or a pointer to a `wrapped_error` cell.  Pointers are
  addresses into an explicit heap (`Heap := List Cell`), so the in-place
  mutation performed by the library is explicit state passing: every
  operation takes the heap and returns the (possibly extended or updated)
  heap together with its result.
* Go strings are byte sequences; `strings.HasPrefix` and the slice
  `funcname[5:]` are modelled on `String.data` (the prefix is ASCII, so
  bytes and characters coincide).
* `fmt.Sprintf` is modelled by `goSprintfV`, an interpreter of the `%v`
  verb, the only verb the library itself generates
  (`strings.Repeat("%v,", n)`); `%v` rendering of the argument values is
  `renderV`.  The fixed format `"%s(%s): %s"` is modelled directly as
  string concatenation.
* Functions that can panic return `Option`: `none` is a Go panic
  (failed type assertion `args[0].(string)`, `runtime.Callers` not
  producing exactly one frame, calling `Error()` on a nil interface).
* `runtime.Callers` into a one-element buffer is modelled by
  `CallersResult`: the number of frames written and the function name of
  the frame, supplied by the ambient execution context.
-/

namespace We

/-- A Go `error` interface value: nil, a plain (non-`we`) error with its
`Error()` message, or a `*wrapped_error` pointer into the heap. -/
inductive GoErr where
  | nil : GoErr
  | plain : String → GoErr
  | ref : Nat → GoErr
deriving DecidableEq, Repr

/-- The `wrapped_error` struct of src/we.go: `msg`, `cause`, `code`. -/
structure Cell where
  msg : String
  cause : GoErr
  code : Int
deriving DecidableEq, Repr

/-- The heap of allocated `wrapped_error` cells; a `GoErr.ref a` points to
index `a`. -/
abbrev Heap := List Cell

/-- The two process-wide configuration variables `MainPrefix` and
`DefaultExitCode` of src/we.go, read by each operation. -/
structure Config where
  MainPrefix : Bool
  DefaultExitCode : Int
deriving DecidableEq, Repr

/-- A value passed in the variadic `args ...interface{}` list. -/
inductive GoValue where
  | str : String → GoValue
  | int : Int → GoValue
deriving DecidableEq, Repr

/-- Go `%v` rendering of a `GoValue`. -/
def renderV : GoValue → String
  | .str s => s
  | .int i => toString i

/-- The Go type assertion `v.(string)`: panics (`none`) unless the value
is a string. -/
def asString : GoValue → Option String
  | .str s => some s
  | .int _ => none

/-- The `Error()` method call `e.Error()`: panics (`none`) on the nil
interface, returns `msg` of a plain error or of the pointed-to cell. -/
def errorMsg (h : Heap) : GoErr → Option String
  | .nil => none
  | .plain m => some m
  | .ref a => (h[a]?).map (·.msg)

/-- Whether the dynamic type of `e` is `*wrapped_error` (the Go type
switch `e.(*wrapped_error)`). -/
def isWrapped : GoErr → Bool
  | .ref _ => true
  | _ => false

/-- A `GoErr` is valid in heap `h` when any pointer it holds points to an
allocated cell (every pointer a Go program can obtain from the library is
of this form). -/
def validErr (h : Heap) : GoErr → Bool
  | .ref a => a < h.length
  | _ => true

/-- The outcome of `runtime.Callers(skip, pc[:])` with a one-element
buffer at the requested depth: `n` frames written, and the
`frame.Function` name that `runtime.CallersFrames` would yield. -/
structure CallersResult where
  n : Nat
  frame : String
deriving DecidableEq, Repr

/-- Function `caller(skip)` of src/we.go lines 405-413: panics (`none`) unless
`runtime.Callers` wrote exactly one frame, otherwise returns the frame's
function name. -/
def caller (r : CallersResult) : Option String :=
  if r.n ≠ 1 then none else some r.frame

/-- Go `strings.HasPrefix(s, pre)` on the underlying bytes. -/
def goHasPrefix (s pre : String) : Bool :=
  pre.data.isPrefixOf s.data

/-- The Go byte-slice `s[n:]`. -/
def goDrop (s : String) (n : Nat) : String :=
  String.mk (s.data.drop n)

/-- src/we.go lines 331-333: strip a leading `"main."` from the resolved
caller name unless `MainPrefix` is set. -/
def resolveName (mainPrefix : Bool) (funcname : String) : String :=
  if !mainPrefix && goHasPrefix funcname "main." then goDrop funcname 5
  else funcname

/-- The format `strings.Repeat("%v,", n)` as a character list. -/
def repeatFmtV : Nat → List Char
  | 0 => []
  | n + 1 => '%' :: 'v' :: ',' :: repeatFmtV n

/-- Go `fmt.Sprintf` restricted to the `%v` verb: each `%v` consumes the next
(already `%v`-rendered) argument, every other character is copied. -/
def goSprintfV : List Char → List String → String
  | [], _ => ""
  | '%' :: 'v' :: rest, a :: args => a ++ goSprintfV rest args
  | '%' :: 'v' :: rest, [] => "%!v(MISSING)" ++ goSprintfV rest []
  | c :: rest, args => String.singleton c ++ goSprintfV rest args

/-- src/we.go lines 335-344: build `args_str` from the variadic list.  With
no arguments it stays `""`; in formatted mode (`f = true`) the first
argument is asserted to be a string (panic `none` otherwise) and used as
the format; otherwise the format is `strings.Repeat("%v,", len(args))`
with the trailing comma sliced off. -/
def mkArgsStr : Bool → List GoValue → Option String
  | _, [] => some ""
  | true, v :: rest =>
      (asString v).map fun fmtStr => goSprintfV fmtStr.data (rest.map renderV)
  | false, args =>
      some (goSprintfV (repeatFmtV args.length).dropLast (args.map renderV))

/-- Function `new_newf` of src/we.go lines 325-356: nil pass-through, caller
resolution (with `main.` trimming), context-string construction, message
composition `"%s(%s): %s"`, then the merge policy: mutate the message of
an existing `wrapped_error` in place, or allocate a fresh cell with
`cause` = the input and `code` = the default. -/
def new_newf (cfg : Config) (h : Heap) (f : Bool) (intro : CallersResult)
    (e : GoErr) (args : List GoValue) : Option (GoErr × Heap) :=
  if e = .nil then some (.nil, h) else
  (caller intro).bind fun fn0 =>
  (mkArgsStr f args).bind fun args_str =>
  (errorMsg h e).bind fun emsg =>
  let funcname := resolveName cfg.MainPrefix fn0
  let msg := funcname ++ "(" ++ args_str ++ "): " ++ emsg
  match e with
  | .ref a => (h[a]?).map fun cell => (GoErr.ref a, h.set a { cell with msg := msg })
  | _ => some (.ref h.length, h ++ [⟨msg, e, cfg.DefaultExitCode⟩])

/-- Function `New` (src/we.go lines 359-361): `new_newf` in non-formatted mode. -/
def New (cfg : Config) (h : Heap) (intro : CallersResult)
    (e : GoErr) (args : List GoValue) : Option (GoErr × Heap) :=
  new_newf cfg h false intro e args

/-- Function `Newf` (src/we.go lines 364-366): `new_newf` in formatted mode. -/
def Newf (cfg : Config) (h : Heap) (intro : CallersResult)
    (e : GoErr) (args : List GoValue) : Option (GoErr × Heap) :=
  new_newf cfg h true intro e args

/-- Function `WithExitCode` (src/we.go lines 389-402): nil pass-through; mutate
`code` in place on a `wrapped_error`; otherwise allocate a cell with the
input error's own message, `cause` = input, `code` = given. -/
def WithExitCode (h : Heap) (code : Int) (e : GoErr) : Option (GoErr × Heap) :=
  if e = .nil then some (.nil, h) else
  match e with
  | .ref a => (h[a]?).map fun cell => (GoErr.ref a, h.set a { cell with code := code })
  | _ => (errorMsg h e).map fun m => (GoErr.ref h.length, h ++ [⟨m, e, code⟩])

/-- Function `NewEC` (src/we.go lines 369-372): `new_newf` then `WithExitCode`. -/
def NewEC (cfg : Config) (h : Heap) (code : Int) (intro : CallersResult)
    (e : GoErr) (args : List GoValue) : Option (GoErr × Heap) :=
  (new_newf cfg h false intro e args).bind fun res => WithExitCode res.2 code res.1

/-- Function `NewfEC` (src/we.go lines 375-378): formatted `new_newf` then
`WithExitCode`. -/
def NewfEC (cfg : Config) (h : Heap) (code : Int) (intro : CallersResult)
    (e : GoErr) (args : List GoValue) : Option (GoErr × Heap) :=
  (new_newf cfg h true intro e args).bind fun res => WithExitCode res.2 code res.1

/-- Function `ExitCode` (src/we.go lines 381-386): the cell's `code` for a
`wrapped_error`, `DefaultExitCode` for anything else (nil included). -/
def ExitCode (cfg : Config) (h : Heap) : GoErr → Option Int
  | .ref a => (h[a]?).map (·.code)
  | _ => some cfg.DefaultExitCode

/-- Function `Cause` (src/we.go lines 317-322): the cell's `cause` for a
`wrapped_error`, the input unchanged for anything else. -/
def Cause (h : Heap) : GoErr → Option GoErr
  | .ref a => (h[a]?).map (·.cause)
  | e => some e

/-- Function `Prependf` (src/we.go lines 416-429): no nil check — `e.Error()` is
called unconditionally, so a nil input panics (`none`); otherwise composes
`"<prefix>: <msg>"` and applies the same merge policy as `new_newf`. -/
def Prependf (cfg : Config) (h : Heap) (fmt : String) (fargs : List GoValue)
    (e : GoErr) : Option (GoErr × Heap) :=
  let prefixStr := goSprintfV fmt.data (fargs.map renderV)
  (errorMsg h e).map fun emsg =>
  let msg := prefixStr ++ ": " ++ emsg
  match e with
  | .ref a =>
      match h[a]? with
      | some cell => (GoErr.ref a, h.set a { cell with msg := msg })
      | none => (GoErr.ref a, h)
  | _ => (GoErr.ref h.length, h ++ [⟨msg, e, cfg.DefaultExitCode⟩])

/-- One application of a wrap / exit-code entry point, used to express
chains of sequential operations. -/
inductive WrapOp where
  | wNew : CallersResult → List GoValue → WrapOp
  | wNewf : CallersResult → List GoValue → WrapOp
  | wNewEC : Int → CallersResult → List GoValue → WrapOp
  | wNewfEC : Int → CallersResult → List GoValue → WrapOp
  | wWithExitCode : Int → WrapOp
deriving Repr

/-- Run one entry point on an error in a heap. -/
def applyOp (cfg : Config) (h : Heap) (e : GoErr) : WrapOp → Option (GoErr × Heap)
  | .wNew intro args => New cfg h intro e args
  | .wNewf intro args => Newf cfg h intro e args
  | .wNewEC code intro args => NewEC cfg h code intro e args
  | .wNewfEC code intro args => NewfEC cfg h code intro e args
  | .wWithExitCode code => WithExitCode h code e

/-- Run a sequence of entry points, each on the previous result. -/
def applyChain (cfg : Config) (h : Heap) (e : GoErr) : List WrapOp → Option (GoErr × Heap)
  | [] => some (e, h)
  | op :: ops => (applyOp cfg h e op).bind fun res => applyChain cfg res.2 res.1 ops

/-- Comma-join with no trailing comma (the shape `new_newf`'s
`strings.Repeat("%v,", n)` + slice construction produces). -/
def joinComma : List String → String
  | [] => ""
  | [a] => a
  | a :: rest => a ++ "," ++ joinComma rest

/-! ## Basic computation lemmas -/

theorem goSprintfV_pv (rest : List Char) (a : String) (args : List String) :
    goSprintfV ('%' :: 'v' :: rest) (a :: args) = a ++ goSprintfV rest args := rfl

theorem goSprintfV_comma (rest : List Char) (args : List String) :
    goSprintfV (',' :: rest) args = "," ++ goSprintfV rest args := rfl

theorem repeatFmtV_ne_nil (n : Nat) : repeatFmtV (n + 1) ≠ [] := by
  simp [repeatFmtV]

/-- The `strings.Repeat("%v,", n)` format with the trailing comma sliced
off, interpreted over `n` rendered arguments, is exactly the comma-join
with no trailing comma. -/
theorem sprintf_repeat : (l : List String) →
    goSprintfV (repeatFmtV l.length).dropLast l = joinComma l
  | [] => rfl
  | [a] => by
      show goSprintfV (repeatFmtV 1).dropLast [a] = a
      have h1 : (repeatFmtV 1).dropLast = ['%', 'v'] := rfl
      rw [h1, goSprintfV_pv]
      show a ++ "" = a
      exact String.append_empty a
  | a :: b :: t => by
      have ih := sprintf_repeat (b :: t)
      have hlen : (a :: b :: t).length = (b :: t).length + 1 := rfl
      have hfmt : repeatFmtV ((b :: t).length + 1)
          = '%' :: 'v' :: ',' :: repeatFmtV (b :: t).length := rfl
      have hbt : repeatFmtV (b :: t).length = '%' :: 'v' :: ',' :: repeatFmtV t.length := rfl
      have hdrop : (repeatFmtV ((b :: t).length + 1)).dropLast
          = '%' :: 'v' :: ',' :: (repeatFmtV (b :: t).length).dropLast := by
        rw [hfmt, hbt]
        simp [List.dropLast_cons₂]
      rw [hlen, hdrop, goSprintfV_pv, goSprintfV_comma, ih]
      show a ++ ("," ++ joinComma (b :: t)) = a ++ "," ++ joinComma (b :: t)
      rw [String.append_assoc]

/-- In non-formatted mode the context string always succeeds and is the
comma-join of the `%v`-rendered arguments. -/
theorem mkArgsStr_false (args : List GoValue) :
    mkArgsStr false args = some (joinComma (args.map renderV)) := by
  cases args with
  | nil => rfl
  | cons a rest =>
      show some (goSprintfV (repeatFmtV (a :: rest).length).dropLast
        ((a :: rest).map renderV)) = _
      have hlen : (a :: rest).length = ((a :: rest).map renderV).length := by
        simp
      rw [hlen, sprintf_repeat]

theorem lt_length_of_getElem?_eq_some {α : Type} {l : List α} {i : Nat} {a : α}
    (h : l[i]? = some a) : i < l.length := by
  by_contra hn
  rw [List.getElem?_eq_none (Nat.le_of_not_lt hn)] at h
  exact Option.noConfusion h

/-! ## Unfolding and inversion lemmas for the entry points -/

theorem caller_eq_some (intro : CallersResult) (hn : intro.n = 1) :
    caller intro = some intro.frame := by
  simp [caller, hn]

theorem caller_some_inv (r : CallersResult) (s : String) (hs : caller r = some s) :
    r.n = 1 ∧ s = r.frame := by
  by_cases hn : r.n = 1
  · simp [caller, hn] at hs
    exact ⟨hn, hs.symm⟩
  · simp [caller, hn] at hs

/-- Running `new_newf` on a plain error allocates a fresh cell holding the
composed message, the input as `cause`, and the default exit code. -/
theorem new_newf_plain (cfg : Config) (h : Heap) (f : Bool) (intro : CallersResult)
    (m : String) (args : List GoValue) (s : String)
    (hn : intro.n = 1) (hargs : mkArgsStr f args = some s) :
    new_newf cfg h f intro (.plain m) args
      = some (.ref h.length,
          h ++ [⟨resolveName cfg.MainPrefix intro.frame ++ "(" ++ s ++ "): " ++ m,
                 .plain m, cfg.DefaultExitCode⟩]) := by
  simp [new_newf, caller_eq_some intro hn, hargs, errorMsg]

/-- Running `new_newf` on an existing `wrapped_error` overwrites the message in
place, keeping `cause` and `code`, and returns the same pointer. -/
theorem new_newf_ref (cfg : Config) (h : Heap) (f : Bool) (intro : CallersResult)
    (a : Nat) (cell : Cell) (args : List GoValue) (s : String)
    (hn : intro.n = 1) (hargs : mkArgsStr f args = some s) (hc : h[a]? = some cell) :
    new_newf cfg h f intro (.ref a) args
      = some (.ref a,
          h.set a ⟨resolveName cfg.MainPrefix intro.frame ++ "(" ++ s ++ "): " ++ cell.msg,
                   cell.cause, cell.code⟩) := by
  simp [new_newf, caller_eq_some intro hn, hargs, errorMsg, hc]

/-- Any successful `new_newf` on a plain error is an allocation with
`cause` = the input and `code` = the default. -/
theorem new_newf_plain_inv (cfg : Config) (h : Heap) (f : Bool) (intro : CallersResult)
    (m : String) (args : List GoValue) (r : GoErr) (h₂ : Heap)
    (hrun : new_newf cfg h f intro (.plain m) args = some (r, h₂)) :
    ∃ s, intro.n = 1 ∧ mkArgsStr f args = some s
      ∧ r = .ref h.length
      ∧ h₂ = h ++ [⟨resolveName cfg.MainPrefix intro.frame ++ "(" ++ s ++ "): " ++ m,
                    .plain m, cfg.DefaultExitCode⟩] := by
  simp only [new_newf, errorMsg] at hrun
  rw [if_neg (by simp)] at hrun
  cases hcall : caller intro with
  | none => rw [hcall] at hrun; exact Option.noConfusion hrun
  | some fn0 =>
      rw [hcall] at hrun
      cases hargs : mkArgsStr f args with
      | none => rw [hargs] at hrun; exact Option.noConfusion hrun
      | some s =>
          rw [hargs] at hrun
          simp only [Option.some_bind] at hrun
          obtain ⟨hn1, hfr⟩ := caller_some_inv intro fn0 hcall
          subst hfr
          refine ⟨s, hn1, rfl, ?_, ?_⟩
          · exact (Prod.mk.injEq .. ▸ Option.some.inj hrun).1.symm
          · exact (Prod.mk.injEq .. ▸ Option.some.inj hrun).2.symm

/-- Any successful `new_newf` on a `wrapped_error` pointer is an in-place
message update: same pointer, `cause` and `code` of the cell kept. -/
theorem new_newf_ref_inv (cfg : Config) (h : Heap) (f : Bool) (intro : CallersResult)
    (a : Nat) (args : List GoValue) (r : GoErr) (h₂ : Heap)
    (hrun : new_newf cfg h f intro (.ref a) args = some (r, h₂)) :
    ∃ s cell, intro.n = 1 ∧ mkArgsStr f args = some s
      ∧ h[a]? = some cell ∧ r = .ref a
      ∧ h₂ = h.set a ⟨resolveName cfg.MainPrefix intro.frame ++ "(" ++ s ++ "): " ++ cell.msg,
                      cell.cause, cell.code⟩ := by
  simp only [new_newf, errorMsg] at hrun
  rw [if_neg (by simp)] at hrun
  cases hcall : caller intro with
  | none => rw [hcall] at hrun; exact Option.noConfusion hrun
  | some fn0 =>
      rw [hcall] at hrun
      cases hargs : mkArgsStr f args with
      | none => rw [hargs] at hrun; exact Option.noConfusion hrun
      | some s =>
          rw [hargs] at hrun
          cases hc : h[a]? with
          | none => rw [hc] at hrun; exact Option.noConfusion hrun
          | some cell =>
              rw [hc] at hrun
              simp only [Option.some_bind, Option.map_some', Option.some.injEq,
                Prod.mk.injEq] at hrun
              obtain ⟨hn1, hfr⟩ := caller_some_inv intro fn0 hcall
              subst hfr
              exact ⟨s, cell, hn1, rfl, rfl, hrun.1.symm, hrun.2.symm⟩

theorem withExitCode_ref (h : Heap) (code : Int) (a : Nat) (cell : Cell)
    (hc : h[a]? = some cell) :
    WithExitCode h code (.ref a)
      = some (.ref a, h.set a ⟨cell.msg, cell.cause, code⟩) := by
  simp [WithExitCode, hc]

theorem withExitCode_plain (h : Heap) (code : Int) (m : String) :
    WithExitCode h code (.plain m)
      = some (.ref h.length, h ++ [⟨m, .plain m, code⟩]) := rfl

theorem withExitCode_ref_inv (h : Heap) (code : Int) (a : Nat) (r : GoErr) (h₂ : Heap)
    (hrun : WithExitCode h code (.ref a) = some (r, h₂)) :
    ∃ cell, h[a]? = some cell ∧ r = .ref a
      ∧ h₂ = h.set a ⟨cell.msg, cell.cause, code⟩ := by
  simp only [WithExitCode] at hrun
  rw [if_neg (by simp)] at hrun
  cases hc : h[a]? with
  | none => rw [hc] at hrun; exact Option.noConfusion hrun
  | some cell =>
      rw [hc] at hrun
      simp only [Option.map_some', Option.some.injEq, Prod.mk.injEq] at hrun
      exact ⟨cell, rfl, hrun.1.symm, hrun.2.symm⟩

/-! ## Preservation of the root cause along wrap chains -/

/-- The cell at address `a` exists and its `cause` field is `c`. -/
def causeAt (h : Heap) (a : Nat) (c : GoErr) : Prop :=
  ∃ cell, h[a]? = some cell ∧ cell.cause = c

theorem causeAt_set_self (h : Heap) (a : Nat) (cell : Cell)
    (ha : a < h.length) : causeAt (h.set a cell) a cell.cause :=
  ⟨cell, List.getElem?_set_self ha, rfl⟩

theorem new_newf_ref_cause (cfg : Config) (h : Heap) (f : Bool) (intro : CallersResult)
    (a : Nat) (c : GoErr) (args : List GoValue) (r : GoErr) (h₂ : Heap)
    (hca : causeAt h a c)
    (hrun : new_newf cfg h f intro (.ref a) args = some (r, h₂)) :
    r = .ref a ∧ causeAt h₂ a c := by
  obtain ⟨s, cell, _, _, hc, hr, hh⟩ := new_newf_ref_inv cfg h f intro a args r h₂ hrun
  obtain ⟨cell', hc', hcause⟩ := hca
  have hcc : cell' = cell := Option.some.inj (hc' ▸ hc)
  subst hcc
  refine ⟨hr, ?_⟩
  rw [hh, ← hcause]
  exact causeAt_set_self h a _ (lt_length_of_getElem?_eq_some hc)

theorem withExitCode_ref_cause (h : Heap) (code : Int) (a : Nat) (c : GoErr)
    (r : GoErr) (h₂ : Heap) (hca : causeAt h a c)
    (hrun : WithExitCode h code (.ref a) = some (r, h₂)) :
    r = .ref a ∧ causeAt h₂ a c := by
  obtain ⟨cell, hc, hr, hh⟩ := withExitCode_ref_inv h code a r h₂ hrun
  obtain ⟨cell', hc', hcause⟩ := hca
  have hcc : cell' = cell := Option.some.inj (hc' ▸ hc)
  subst hcc
  refine ⟨hr, ?_⟩
  rw [hh, ← hcause]
  exact causeAt_set_self h a _ (lt_length_of_getElem?_eq_some hc)

/-- One entry point applied to a `wrapped_error` pointer returns the same
pointer and keeps the cell's `cause`. -/
theorem applyOp_ref_cause (cfg : Config) (h : Heap) (a : Nat) (c : GoErr)
    (op : WrapOp) (r : GoErr) (h₂ : Heap) (hca : causeAt h a c)
    (hrun : applyOp cfg h (.ref a) op = some (r, h₂)) :
    r = .ref a ∧ causeAt h₂ a c := by
  cases op with
  | wNew intro args => exact new_newf_ref_cause cfg h false intro a c args r h₂ hca hrun
  | wNewf intro args => exact new_newf_ref_cause cfg h true intro a c args r h₂ hca hrun
  | wWithExitCode code => exact withExitCode_ref_cause h code a c r h₂ hca hrun
  | wNewEC code intro args =>
      simp only [applyOp, NewEC] at hrun
      cases hmid : new_newf cfg h false intro (.ref a) args with
      | none => rw [hmid] at hrun; exact Option.noConfusion hrun
      | some res =>
          rw [hmid] at hrun
          simp only [Option.some_bind] at hrun
          obtain ⟨hr1, hca1⟩ :=
            new_newf_ref_cause cfg h false intro a c args res.1 res.2 hca hmid
          rw [hr1] at hrun
          exact withExitCode_ref_cause res.2 code a c r h₂ hca1 hrun
  | wNewfEC code intro args =>
      simp only [applyOp, NewfEC] at hrun
      cases hmid : new_newf cfg h true intro (.ref a) args with
      | none => rw [hmid] at hrun; exact Option.noConfusion hrun
      | some res =>
          rw [hmid] at hrun
          simp only [Option.some_bind] at hrun
          obtain ⟨hr1, hca1⟩ :=
            new_newf_ref_cause cfg h true intro a c args res.1 res.2 hca hmid
          rw [hr1] at hrun
          exact withExitCode_ref_cause res.2 code a c r h₂ hca1 hrun

/-- One entry point applied to a plain error allocates the cell at the end
of the heap with the input as its `cause`. -/
theorem applyOp_plain_cause (cfg : Config) (h : Heap) (m : String)
    (op : WrapOp) (r : GoErr) (h₂ : Heap)
    (hrun : applyOp cfg h (.plain m) op = some (r, h₂)) :
    r = .ref h.length ∧ causeAt h₂ h.length (.plain m) := by
  cases op with
  | wNew intro args =>
      obtain ⟨s, _, _, hr, hh⟩ := new_newf_plain_inv cfg h false intro m args r h₂ hrun
      exact ⟨hr, ⟨_, hh ▸ List.getElem?_concat_length h _, rfl⟩⟩
  | wNewf intro args =>
      obtain ⟨s, _, _, hr, hh⟩ := new_newf_plain_inv cfg h true intro m args r h₂ hrun
      exact ⟨hr, ⟨_, hh ▸ List.getElem?_concat_length h _, rfl⟩⟩
  | wWithExitCode code =>
      rw [applyOp, withExitCode_plain] at hrun
      have h1 := (Prod.mk.injEq .. ▸ Option.some.inj hrun).1.symm
      have h2 := (Prod.mk.injEq .. ▸ Option.some.inj hrun).2.symm
      exact ⟨h1, ⟨_, h2 ▸ List.getElem?_concat_length h _, rfl⟩⟩
  | wNewEC code intro args =>
      simp only [applyOp, NewEC] at hrun
      cases hmid : new_newf cfg h false intro (.plain m) args with
      | none => rw [hmid] at hrun; exact Option.noConfusion hrun
      | some res =>
          rw [hmid] at hrun
          simp only [Option.some_bind] at hrun
          obtain ⟨s, _, _, hr1, hh1⟩ :=
            new_newf_plain_inv cfg h false intro m args res.1 res.2 hmid
          have hca1 : causeAt res.2 h.length (.plain m) :=
            ⟨_, hh1 ▸ List.getElem?_concat_length h _, rfl⟩
          rw [hr1] at hrun
          exact withExitCode_ref_cause res.2 code h.length (.plain m) r h₂ hca1 hrun
  | wNewfEC code intro args =>
      simp only [applyOp, NewfEC] at hrun
      cases hmid : new_newf cfg h true intro (.plain m) args with
      | none => rw [hmid] at hrun; exact Option.noConfusion hrun
      | some res =>
          rw [hmid] at hrun
          simp only [Option.some_bind] at hrun
          obtain ⟨s, _, _, hr1, hh1⟩ :=
            new_newf_plain_inv cfg h true intro m args res.1 res.2 hmid
          have hca1 : causeAt res.2 h.length (.plain m) :=
            ⟨_, hh1 ▸ List.getElem?_concat_length h _, rfl⟩
          rw [hr1] at hrun
          exact withExitCode_ref_cause res.2 code h.length (.plain m) r h₂ hca1 hrun

/-- A whole chain of entry points applied to a `wrapped_error` pointer
returns the same pointer and keeps the cell's `cause`. -/
theorem applyChain_ref_cause (cfg : Config) :
    ∀ (ops : List WrapOp) (h : Heap) (a : Nat) (c : GoErr) (r : GoErr) (h₂ : Heap),
    causeAt h a c → applyChain cfg h (.ref a) ops = some (r, h₂) →
    r = .ref a ∧ causeAt h₂ a c
  | [], h, a, c, r, h₂, hca, hrun => by
      simp only [applyChain, Option.some.injEq, Prod.mk.injEq] at hrun
      exact ⟨hrun.1.symm, hrun.2 ▸ hca⟩
  | op :: ops, h, a, c, r, h₂, hca, hrun => by
      simp only [applyChain] at hrun
      cases hmid : applyOp cfg h (.ref a) op with
      | none => rw [hmid] at hrun; exact Option.noConfusion hrun
      | some res =>
          rw [hmid] at hrun
          simp only [Option.some_bind] at hrun
          obtain ⟨hr1, hca1⟩ := applyOp_ref_cause cfg h a c op res.1 res.2 hca hmid
          rw [hr1] at hrun
          exact applyChain_ref_cause cfg ops res.2 a c r h₂ hca1 hrun

/-! ## Claim theorems -/

/-- C4: every wrap and exit-code entry point — `New`, `Newf`, `NewEC`,
`NewfEC`, `WithExitCode` — applied to the nil error returns nil without
panicking (the result is `some (nil, unchanged heap)`, never `none`). -/
theorem we_C4 (cfg : Config) (h : Heap) (intro : CallersResult)
    (args : List GoValue) (c : Int) :
    New cfg h intro .nil args = some (.nil, h)
    ∧ Newf cfg h intro .nil args = some (.nil, h)
    ∧ NewEC cfg h c intro .nil args = some (.nil, h)
    ∧ NewfEC cfg h c intro .nil args = some (.nil, h)
    ∧ WithExitCode h c .nil = some (.nil, h) :=
  ⟨rfl, rfl, rfl, rfl, rfl⟩

/-- C5 (what the code actually does): `Prependf` has no nil check, so on a
nil input it reaches `e.Error()` on a nil interface and panics (`none`) —
for every configuration, heap, format string and format arguments — instead
of the nil pass-through the other entry points perform. -/
theorem we_C5 (cfg : Config) (h : Heap) (fmt : String) (fargs : List GoValue) :
    Prependf cfg h fmt fargs .nil = none := rfl

/-- C9: whenever the stack introspection does not produce exactly one
frame, the caller-resolver panics (`none`) rather than returning a name;
a name is returned only in the exactly-one-frame case, and it is exactly
the resolved frame's function name. -/
theorem we_C9 (r : CallersResult) :
    (r.n ≠ 1 → caller r = none)
    ∧ ∀ s, caller r = some s → r.n = 1 ∧ s = r.frame := by
  constructor
  · intro hn; simp [caller, hn]
  · intro s hs
    by_cases hn : r.n = 1
    · refine ⟨hn, ?_⟩
      simp [caller, hn] at hs
      exact hs.symm
    · simp [caller, hn] at hs

/-- Witness for C9 at a concrete introspection outcome: zero frames at the
requested depth makes the resolver panic. -/
theorem we_C9_witness : caller ⟨0, "main.doWork"⟩ = none :=
  (we_C9 ⟨0, "main.doWork"⟩).1 (by decide)

/-- C8: with `MainPrefix = false` a resolved name beginning with the
literal `"main."` has exactly that prefix stripped; with
`MainPrefix = true` the name is used unchanged; and the name so resolved
is the one appearing in `New`'s composed message. -/
theorem we_C8 :
    (∀ rest : String, resolveName false ("main." ++ rest) = rest)
    ∧ (∀ fn : String, resolveName true fn = fn)
    ∧ New ⟨false, 1⟩ [] ⟨1, "main.doWork"⟩ (.plain "x") []
        = some (.ref 0, [⟨"doWork(): x", .plain "x", 1⟩])
    ∧ New ⟨true, 1⟩ [] ⟨1, "main.doWork"⟩ (.plain "x") []
        = some (.ref 0, [⟨"main.doWork(): x", .plain "x", 1⟩]) := by
  refine ⟨?_, ?_, rfl, rfl⟩
  · intro rest
    have hpre : goHasPrefix ("main." ++ rest) "main." = true := by
      simp [goHasPrefix, String.data_append, List.isPrefixOf_iff_prefix,
        List.prefix_append]
    simp only [resolveName, hpre, Bool.not_false, Bool.true_and, if_true]
    show String.mk ((("main." : String) ++ rest).data.drop 5) = rest
    rw [String.data_append]
    rw [show (5 : Nat) = ("main." : String).data.length from rfl]
    rw [List.drop_left]
  · intro fn; simp [resolveName]

theorem compose_empty_ctx (fn m : String) :
    fn ++ "(" ++ "" ++ "): " ++ m = fn ++ "(): " ++ m := by
  rw [String.append_empty, String.append_assoc fn "(" "): "]
  rfl

/-- C1: wrapping a non-null plain error with `New` and no context values
composes the message `"<caller>(): " ++ msg`, and with `n ≥ 1` context
values composes `"<caller>(v1,...,vn): " ++ msg`, each value rendered by
`%v` and joined by commas with no trailing comma (the general conjunct
covers every argument list, `joinComma [] = ""` giving the empty
parentheses). -/
theorem we_C1 (cfg : Config) (h : Heap) (intro : CallersResult) (m : String)
    (args : List GoValue) (hn : intro.n = 1) :
    New cfg h intro (.plain m) args
      = some (.ref h.length,
          h ++ [⟨resolveName cfg.MainPrefix intro.frame ++ "("
                   ++ joinComma (args.map renderV) ++ "): " ++ m,
                 .plain m, cfg.DefaultExitCode⟩])
    ∧ New cfg h intro (.plain m) []
      = some (.ref h.length,
          h ++ [⟨resolveName cfg.MainPrefix intro.frame ++ "(): " ++ m,
                 .plain m, cfg.DefaultExitCode⟩]) := by
  constructor
  · exact new_newf_plain cfg h false intro m args _ hn (mkArgsStr_false args)
  · have hmain := new_newf_plain cfg h false intro m [] "" hn (mkArgsStr_false [])
    rw [New, hmain, compose_empty_ctx]

/-- Witness for C1 at a concrete caller, error and argument list. -/
theorem we_C1_witness :
    (⟨1, "pkg.readFile"⟩ : CallersResult).n = 1
    ∧ New ⟨false, 1⟩ [] ⟨1, "pkg.readFile"⟩ (.plain "disk full") [.int 42, .str "plugh"]
      = some (.ref 0, [⟨"pkg.readFile(42,plugh): disk full", .plain "disk full", 1⟩]) := by
  refine ⟨rfl, ?_⟩
  rw [(we_C1 ⟨false, 1⟩ [] ⟨1, "pkg.readFile"⟩ "disk full" [.int 42, .str "plugh"] rfl).1]
  rfl

/-- C2: any nonempty chain of `New`/`Newf`/`NewEC`/`NewfEC`/`WithExitCode`
applications started on a plain error `e` yields a `wrapped_error` whose
stored `cause` is `e` itself — never an annotated error — so `Cause`
returns `e`; and `Cause` returns any non-annotated input (nil included)
unchanged. -/
theorem we_C2 (cfg : Config) (h : Heap) (m : String) (ops : List WrapOp)
    (r : GoErr) (h₂ : Heap) (hne : ops ≠ [])
    (hrun : applyChain cfg h (.plain m) ops = some (r, h₂)) :
    (∃ a cell, r = .ref a ∧ h₂[a]? = some cell ∧ cell.cause = .plain m
       ∧ isWrapped cell.cause = false)
    ∧ Cause h₂ r = some (.plain m)
    ∧ (∀ (h₃ : Heap) (e : GoErr), isWrapped e = false → Cause h₃ e = some e) := by
  cases ops with
  | nil => exact absurd rfl hne
  | cons op rest =>
      simp only [applyChain] at hrun
      cases hmid : applyOp cfg h (.plain m) op with
      | none => rw [hmid] at hrun; exact Option.noConfusion hrun
      | some res =>
          rw [hmid] at hrun
          simp only [Option.some_bind] at hrun
          obtain ⟨hr1, hca1⟩ := applyOp_plain_cause cfg h m op res.1 res.2 hmid
          rw [hr1] at hrun
          obtain ⟨hr, hca⟩ :=
            applyChain_ref_cause cfg rest res.2 h.length (.plain m) r h₂ hca1 hrun
          obtain ⟨cell, hcell, hcause⟩ := hca
          refine ⟨⟨h.length, cell, hr, hcell, hcause, by rw [hcause]; rfl⟩, ?_, ?_⟩
          · rw [hr]
            simp [Cause, hcell, hcause]
          · intro h₃ e hne'
            cases e with
            | nil => rfl
            | plain s => rfl
            | ref a => simp [isWrapped] at hne'

/-- Witness for C2: a two-step chain (a wrap then an exit-code update) on
a concrete plain error keeps the original error as the cause. -/
theorem we_C2_witness :
    Cause [⟨"a.f(): root", .plain "root", 7⟩] (.ref 0) = some (.plain "root") :=
  (we_C2 ⟨false, 1⟩ [] "root" [.wNew ⟨1, "a.f"⟩ [], .wWithExitCode 7] (.ref 0)
    [⟨"a.f(): root", .plain "root", 7⟩] (by simp) rfl).2.1

/-- C3: `new_newf` (hence `New` and `Newf`) on an already-annotated error
mutates only the message of the pointed-to cell, returning the same
pointer with `cause` and `code` untouched; on a plain error it allocates
a new cell with `cause` = input, `code` = the process default, and
message = the composed string; and a code set by an earlier `WithExitCode`
survives a later plain `New` on the same error. -/
theorem we_C3 :
    (∀ (cfg : Config) (h : Heap) (f : Bool) (intro : CallersResult) (a : Nat)
       (cell : Cell) (args : List GoValue) (r : GoErr) (h₂ : Heap),
       h[a]? = some cell →
       new_newf cfg h f intro (.ref a) args = some (r, h₂) →
       r = .ref a ∧ ∃ s, mkArgsStr f args = some s
         ∧ h₂ = h.set a ⟨resolveName cfg.MainPrefix intro.frame ++ "(" ++ s ++ "): "
                           ++ cell.msg, cell.cause, cell.code⟩)
    ∧ (∀ (cfg : Config) (h : Heap) (f : Bool) (intro : CallersResult) (m : String)
        (args : List GoValue) (r : GoErr) (h₂ : Heap),
        new_newf cfg h f intro (.plain m) args = some (r, h₂) →
        r = .ref h.length ∧ ∃ s, mkArgsStr f args = some s
          ∧ h₂ = h ++ [⟨resolveName cfg.MainPrefix intro.frame ++ "(" ++ s ++ "): " ++ m,
                        .plain m, cfg.DefaultExitCode⟩])
    ∧ (∀ (cfg : Config) (h : Heap) (intro : CallersResult) (c : Int) (m : String)
        (args : List GoValue) (r₁ r₂ : GoErr) (h₁ h₂ : Heap),
        WithExitCode h c (.plain m) = some (r₁, h₁) →
        New cfg h₁ intro r₁ args = some (r₂, h₂) →
        ExitCode cfg h₂ r₂ = some c) := by
  refine ⟨?_, ?_, ?_⟩
  · intro cfg h f intro a cell args r h₂ hc hrun
    obtain ⟨s, cell', _, hargs, hc', hr, hh⟩ :=
      new_newf_ref_inv cfg h f intro a args r h₂ hrun
    have hcc : cell = cell' := Option.some.inj (hc ▸ hc')
    subst hcc
    exact ⟨hr, s, hargs, hh⟩
  · intro cfg h f intro m args r h₂ hrun
    obtain ⟨s, _, hargs, hr, hh⟩ := new_newf_plain_inv cfg h f intro m args r h₂ hrun
    exact ⟨hr, s, hargs, hh⟩
  · intro cfg h intro c m args r₁ r₂ h₁ h₂ hw hn
    rw [withExitCode_plain] at hw
    have hr1 : r₁ = .ref h.length := (Prod.mk.injEq .. ▸ Option.some.inj hw).1.symm
    have hh1 : h₁ = h ++ [⟨m, .plain m, c⟩] := (Prod.mk.injEq .. ▸ Option.some.inj hw).2.symm
    subst hr1; subst hh1
    obtain ⟨s, cell, _, _, hc, hr, hh⟩ :=
      new_newf_ref_inv cfg _ false intro h.length args r₂ h₂ hn
    have hcell : cell = ⟨m, .plain m, c⟩ :=
      (Option.some.inj ((List.getElem?_concat_length h
        (⟨m, .plain m, c⟩ : Cell)).symm.trans hc)).symm
    subst hcell
    rw [hr, hh]
    have hlt : h.length < (h ++ [(⟨m, .plain m, c⟩ : Cell)]).length :=
      lt_length_of_getElem?_eq_some hc
    simp [ExitCode, List.getElem?_set_self hlt]

/-- Witness for C3: instantiates the in-place part on a one-cell heap and
the exit-code-survival part on a concrete error. -/
theorem we_C3_witness :
    (New ⟨false, 1⟩ [⟨"e", .plain "e", 29⟩] ⟨1, "main.f"⟩ (.ref 0) []
       = some (.ref 0, [⟨"f(): e", .plain "e", 29⟩]))
    ∧ ExitCode ⟨false, 1⟩ [⟨"f(): e", .plain "e", 29⟩] (.ref 0) = some 29 := by
  refine ⟨rfl, ?_⟩
  exact we_C3.2.2 ⟨false, 1⟩ [] ⟨1, "main.f"⟩ 29 "e" [] (.ref 0) (.ref 0)
    [⟨"e", .plain "e", 29⟩] [⟨"f(): e", .plain "e", 29⟩] rfl rfl

/-- C6: `WithExitCode` on a non-null error: on an annotated error it
updates only `code` in place (message and cause kept, same pointer
returned); on a plain error it allocates a cell whose message is the
input's own message with no call-site annotation, `cause` = input,
`code` = the given code; in both cases `ExitCode` of the result is the
given code. -/
theorem we_C6 (cfg : Config) (h : Heap) (c : Int) :
    (∀ (a : Nat) (cell : Cell), h[a]? = some cell →
      WithExitCode h c (.ref a) = some (.ref a, h.set a ⟨cell.msg, cell.cause, c⟩)
      ∧ ExitCode cfg (h.set a ⟨cell.msg, cell.cause, c⟩) (.ref a) = some c)
    ∧ (∀ m : String,
      WithExitCode h c (.plain m) = some (.ref h.length, h ++ [⟨m, .plain m, c⟩])
      ∧ ExitCode cfg (h ++ [⟨m, .plain m, c⟩]) (.ref h.length) = some c) := by
  constructor
  · intro a cell hc
    refine ⟨withExitCode_ref h c a cell hc, ?_⟩
    simp [ExitCode, List.getElem?_set_self (lt_length_of_getElem?_eq_some hc)]
  · intro m
    refine ⟨withExitCode_plain h c m, ?_⟩
    simp [ExitCode, List.getElem?_concat_length]

/-- Witness for C6 on a one-cell heap, checking the exit-code override at
code 42. -/
theorem we_C6_witness :
    WithExitCode [⟨"m0", .plain "r", 1⟩] 42 (.ref 0)
      = some (.ref 0, [⟨"m0", .plain "r", 42⟩])
    ∧ ExitCode ⟨false, 1⟩ [⟨"m0", .plain "r", 42⟩] (.ref 0) = some 42 :=
  (we_C6 ⟨false, 1⟩ [⟨"m0", .plain "r", 1⟩] 42).1 0 ⟨"m0", .plain "r", 1⟩ rfl

/-- C7: `ExitCode` is total over every valid error value (nil included):
on an annotated error it returns the cell's code, on everything else the
process-wide default; it never fails. -/
theorem we_C7 (cfg : Config) (h : Heap) (e : GoErr) :
    (validErr h e = true → (ExitCode cfg h e).isSome = true)
    ∧ (∀ (a : Nat) (cell : Cell), e = .ref a → h[a]? = some cell →
        ExitCode cfg h e = some cell.code)
    ∧ (isWrapped e = false → ExitCode cfg h e = some cfg.DefaultExitCode) := by
  refine ⟨?_, ?_, ?_⟩
  · intro hv
    cases e with
    | nil => rfl
    | plain m => rfl
    | ref a =>
        simp only [validErr, decide_eq_true_eq] at hv
        simp [ExitCode, List.getElem?_eq_getElem hv]
  · intro a cell he hc
    subst he
    simp [ExitCode, hc]
  · intro hw
    cases e with
    | nil => rfl
    | plain m => rfl
    | ref a => simp [isWrapped] at hw

/-- Witness for C7: the nil error is valid in the empty heap and yields
the default exit code. -/
theorem we_C7_witness :
    validErr [] .nil = true ∧ ExitCode ⟨false, 7⟩ [] .nil = some 7 :=
  ⟨rfl, (we_C7 ⟨false, 7⟩ [] .nil).2.2 rfl⟩

/-- C10: `Newf` with an empty format-and-argument list never reaches the
`args[0].(string)` type assertion (the context-string builder succeeds
with `""`) and, on every non-null error, succeeds and composes
`"<caller>(): " ++ msg`: allocating for a plain error, and mutating in
place (same pointer, cause and code kept) for an already-annotated
error, whose own message is the one appended. -/
theorem we_C10 (cfg : Config) (h : Heap) (intro : CallersResult)
    (hn : intro.n = 1) :
    mkArgsStr true [] = some ""
    ∧ (∀ m : String, Newf cfg h intro (.plain m) []
        = some (.ref h.length,
            h ++ [⟨resolveName cfg.MainPrefix intro.frame ++ "(): " ++ m,
                   .plain m, cfg.DefaultExitCode⟩]))
    ∧ (∀ (a : Nat) (cell : Cell), h[a]? = some cell →
        Newf cfg h intro (.ref a) []
          = some (.ref a,
              h.set a ⟨resolveName cfg.MainPrefix intro.frame ++ "(): " ++ cell.msg,
                       cell.cause, cell.code⟩)) := by
  refine ⟨rfl, ?_, ?_⟩
  · intro m
    have hmain := new_newf_plain cfg h true intro m [] "" hn rfl
    rw [Newf, hmain, compose_empty_ctx]
  · intro a cell hc
    have hmain := new_newf_ref cfg h true intro a cell [] "" hn rfl hc
    rw [Newf, hmain, compose_empty_ctx]

/-- Witness for C10 at a concrete caller, once on a plain error and once
on an already-annotated one. -/
theorem we_C10_witness :
    (⟨1, "pkg.readFile"⟩ : CallersResult).n = 1
    ∧ Newf ⟨false, 1⟩ [] ⟨1, "pkg.readFile"⟩ (.plain "disk full") []
      = some (.ref 0, [⟨"pkg.readFile(): disk full", .plain "disk full", 1⟩])
    ∧ Newf ⟨false, 1⟩ [⟨"inner: e", .plain "e", 3⟩] ⟨1, "pkg.readFile"⟩ (.ref 0) []
      = some (.ref 0, [⟨"pkg.readFile(): inner: e", .plain "e", 3⟩]) := by
  refine ⟨rfl, ?_, ?_⟩
  · rw [(we_C10 ⟨false, 1⟩ [] ⟨1, "pkg.readFile"⟩ rfl).2.1 "disk full"]
    rfl
  · rw [(we_C10 ⟨false, 1⟩ [⟨"inner: e", .plain "e", 3⟩] ⟨1, "pkg.readFile"⟩ rfl).2.2
      0 ⟨"inner: e", .plain "e", 3⟩ rfl]
    rfl

end We
